import Mathlib

/-!
Shallow embedding of the screener-crawl fetch route
(src/app/api/fetch/route.ts and src/app/config/sectors.ts).

JS strings are modelled as lists of characters (`Str`), JS numbers as
exact rationals (`ℚ`, with `Real.sqrt` for `Math.sqrt`), nullable values
as `Option`, thrown errors as `Except`.  Only the ASCII fragment of
`toUpperCase` / `toLowerCase` / `\s` is modelled, which is the fragment
exercised by ticker symbols and the route's own string constants.
-/

namespace Screener

abbrev Str := List Char

/-- The 26 ASCII letter pairs (lower, upper); basis of the case maps. -/
def asciiPairs : List (Char × Char) :=
  [('a','A'), ('b','B'), ('c','C'), ('d','D'), ('e','E'), ('f','F'), ('g','G'),
   ('h','H'), ('i','I'), ('j','J'), ('k','K'), ('l','L'), ('m','M'), ('n','N'),
   ('o','O'), ('p','P'), ('q','Q'), ('r','R'), ('s','S'), ('t','T'), ('u','U'),
   ('v','V'), ('w','W'), ('x','X'), ('y','Y'), ('z','Z')]

/-- JS `String.prototype.toUpperCase` on one character (ASCII fragment). -/
def upChar (c : Char) : Char :=
  ((asciiPairs.find? (fun p => p.1 == c)).map Prod.snd).getD c

/-- JS `String.prototype.toLowerCase` on one character (ASCII fragment). -/
def downChar (c : Char) : Char :=
  ((asciiPairs.find? (fun p => p.2 == c)).map Prod.fst).getD c

def jsToUpper (s : Str) : Str := s.map upChar

def jsToLower (s : Str) : Str := s.map downChar

/-- JS `\s` / `trim` whitespace (ASCII fragment). -/
def isWs (c : Char) : Bool :=
  c == ' ' || c == '\t' || c == '\n' || c == '\r' || c == '\x0b' || c == '\x0c'

/-- JS `String.prototype.trim`. -/
def trimWs (s : Str) : Str :=
  ((s.dropWhile isWs).reverse.dropWhile isWs).reverse

/-- The replace of runs of whitespace (`replace(/\s+/g, " ")`): each maximal whitespace run becomes one space.
`inRun` records whether the previous character was part of a run already
replaced. -/
def collapseWsGo : Bool → Str → Str
  | _, [] => []
  | inRun, c :: rest =>
    if isWs c then
      if inRun then collapseWsGo true rest
      else ' ' :: collapseWsGo true rest
    else c :: collapseWsGo false rest

def collapseWs (s : Str) : Str := collapseWsGo false s

/-- route.ts `normalizeText`: lowercase, collapse whitespace, trim. -/
def normalizeText (s : Str) : Str := trimWs (collapseWs (jsToLower s))

/-- The regex class `[a-z0-9]` used by `hasBoundedTokenMatch` and the
compacting replaces. -/
def isAlnum (c : Char) : Bool :=
  decide ('a' ≤ c ∧ c ≤ 'z') || decide ('0' ≤ c ∧ c ≤ '9')

/-- The needle occurs in the haystack starting at index `i`. -/
def occursAt (hay needle : Str) (i : ℕ) : Bool :=
  (hay.drop i).take needle.length == needle

/-- JS `String.prototype.includes`. -/
def jsIncludes (hay needle : Str) : Bool :=
  (List.range (hay.length + 1)).any (occursAt hay needle)

/-- route.ts `hasBoundedTokenMatch`: the regex
`(^|[^a-z0-9])token([^a-z0-9]|$)` tests true, i.e. `token` occurs at some
position whose neighbours (when present) are outside `[a-z0-9]`. -/
def hasBoundedTokenMatch (hay tok : Str) : Bool :=
  if tok.isEmpty then false
  else
    (List.range (hay.length + 1)).any (fun i =>
      occursAt hay tok i
      && (i == 0 || !(isAlnum (hay.getD (i - 1) ' ')))
      && (decide (i + tok.length = hay.length) || !(isAlnum (hay.getD (i + tok.length) ' '))))

/-- The stripping replace `replace(/[^a-z0-9]/g, "")`. -/
def compactStr (s : Str) : Str := s.filter isAlnum

/-- route.ts `hasCompanyReference`. -/
def hasCompanyReference (haystack symbol : Str) (name : Option Str) : Bool :=
  let normalized := normalizeText haystack
  if decide (3 ≤ symbol.length) && hasBoundedTokenMatch normalized (jsToLower symbol) then
    true
  else
    match name with
    | none => false
    | some n =>
      if jsIncludes normalized (jsToLower n) then true
      else
        let compactName := compactStr (jsToLower n)
        if compactName.length < 4 then false
        else jsIncludes (compactStr normalized) compactName

/-- route.ts `normalizeSymbol`: trim, uppercase; empty in / empty out
becomes null (JS falsiness of the empty string). -/
def normalizeSymbol (raw : Option Str) : Option Str :=
  match raw with
  | none => none
  | some s =>
    if s = [] then none
    else
      let cleaned := jsToUpper (trimWs s)
      if cleaned = [] then none else some cleaned

/-- route.ts `extractFromHref`: split the trimmed href on `/`, drop empty
segments, find the segment after a literal `company` segment and
normalize it. -/
def extractFromHref (href : Option Str) : Option Str :=
  match href with
  | none => none
  | some h =>
    if h = [] then none
    else
      let segments := ((trimWs h).splitOn '/').filter (fun seg => decide (seg ≠ []))
      match segments.findIdx? (fun seg => seg == "company".toList) with
      | none => none
      | some companyIndex =>
        match segments[companyIndex + 1]? with
        | none => none
        | some seg => normalizeSymbol (some seg)

/-- One data row of a listing page: the first link's href and the first
cell's text, which is all of the markup `parsePage` consults (the markup
parser itself is an external collaborator). -/
structure Row where
  href : Option Str
  firstCellText : Str
deriving DecidableEq, Repr

/-- Insertion into a JS `Set` of strings, modelled as an
insertion-ordered duplicate-free list. -/
def insertSym (l : List Str) (s : Str) : List Str :=
  if s ∈ l then l else l ++ [s]

/-- route.ts `parsePage`, symbol half: per row, prefer the href-derived
symbol, else fall back to the normalized first cell text; collect into a
`Set`. -/
def parsePageSymbols (rows : List Row) : List Str :=
  rows.foldl (fun acc row =>
    match extractFromHref row.href with
    | some hrefSymbol => insertSym acc hrefSymbol
    | none =>
      match normalizeSymbol (some row.firstCellText) with
      | some directSymbol => insertSym acc directSymbol
      | none => acc) []

/-- The `GET` handler's cross-page aggregation
(`pageSymbols.forEach((s) => symbols.add(s))`) over a run's pages. -/
def aggregateSymbols (pages : List (List Row)) : List Str :=
  pages.foldl (fun acc rows => (parsePageSymbols rows).foldl insertSym acc) []

/-- route.ts `splitIntoBatches` at the default batch size 30
(`slice(i, i + 30).join(",")` for i = 0, 30, 60, …).  Structured with a
step counter equal to the input length, which bounds the number of loop
iterations. -/
def splitIntoBatchesGo : ℕ → List Str → List Str
  | _, [] => []
  | 0, _ :: _ => []
  | fuel + 1, l@(_ :: _) =>
    List.intercalate [','] (l.take 30) :: splitIntoBatchesGo fuel (l.drop 30)

def splitIntoBatches (symbols : List Str) : List Str :=
  splitIntoBatchesGo symbols.length symbols

/-- One parsed listing page as the discovery loop sees it: the extracted
symbol set and the next-page flag (the two components `parsePage`
returns). -/
structure PageData where
  symbols : List Str
  hasNext : Bool

def PAGE_LIMIT : ℕ := 100

/-- The discovery loop of `GET` (route.ts lines 755-771), abstracted over
the fetched pages `f` (page number ↦ parsed page).  Returns the page
numbers fetched, in order, and the final deduplicated symbol set.  The
step counter `PAGE_LIMIT + 1` covers the loop bound `page ≤ PAGE_LIMIT`;
the loop advances with `hasNext = pageHasNext && pageSymbols.length > 0`. -/
def discoverGo (f : ℕ → PageData) : ℕ → ℕ → Bool → List Str → List ℕ × List Str
  | 0, _, _, acc => ([], acc)
  | fuel + 1, page, hasNext, acc =>
    if hasNext ∧ page ≤ PAGE_LIMIT then
      let pd := f page
      let acc2 := pd.symbols.foldl insertSym acc
      let rest := discoverGo f fuel (page + 1) (pd.hasNext && !pd.symbols.isEmpty) acc2
      (page :: rest.1, rest.2)
    else ([], acc)

def fetchedPages (f : ℕ → PageData) : List ℕ :=
  (discoverGo f (PAGE_LIMIT + 1) 1 true []).1

def discoveredSymbols (f : ℕ → PageData) : List Str :=
  (discoverGo f (PAGE_LIMIT + 1) 1 true []).2

/-- Ascending insertion into a sorted list of rationals. -/
def sortedInsert (x : ℚ) : List ℚ → List ℚ
  | [] => [x]
  | y :: ys => if x ≤ y then x :: y :: ys else y :: sortedInsert x ys

/-- The numeric sort `[...values].sort((a, b) => a - b)`: any correct ascending sort of a
list of numbers produces the same list, so insertion sort embeds it. -/
def jsSortAsc (l : List ℚ) : List ℚ := l.foldr sortedInsert []

/-- route.ts `median`. -/
def median (values : List ℚ) : Option ℚ :=
  if values.length = 0 then none
  else
    let sorted := jsSortAsc values
    let middle := values.length / 2
    if values.length % 2 = 0 then
      some ((sorted.getD (middle - 1) 0 + sorted.getD middle 0) / 2)
    else some (sorted.getD middle 0)

/-- The variance computed inside route.ts `stdDev` (population variance;
0 below two samples).  `stdDev` itself is its square root. -/
def stdDevSq (values : List ℚ) : ℚ :=
  if values.length < 2 then 0
  else
    let mean := values.sum / (values.length : ℚ)
    ((values.map (fun value => (value - mean) ^ 2)).sum) / (values.length : ℚ)

/-- route.ts `stdDev`: `Math.sqrt` of the population variance, 0 below
two samples (`Real.sqrt 0 = 0` covers the early return). -/
noncomputable def stdDev (values : List ℚ) : ℝ :=
  Real.sqrt ((stdDevSq values : ℚ) : ℝ)

structure StructurePoint where
  retPct : ℚ
  volume : Option ℚ
deriving DecidableEq, Repr

/-- route.ts `buildStructurePoints`: daily percent returns over
consecutive numeric closes (skipping gaps and zero denominators), each
paired with that session's volume when numeric. -/
def buildStructurePoints (closeRaw volumeRaw : List (Option ℚ)) : List StructurePoint :=
  (List.range closeRaw.length).filterMap (fun i =>
    if i = 0 then none
    else
      match (closeRaw[i - 1]?).join, (closeRaw[i]?).join with
      | some previousClose, some close =>
        if previousClose = 0 then none
        else some ⟨(close - previousClose) / previousClose * 100, (volumeRaw[i]?).join⟩
      | _, _ => none)

/-- Signal 2 of `getMarketStructureWarnings`: abnormal volume-price
bursts versus the median positive volume. -/
def volumeBurstFlag (oneYearPoints : List StructurePoint) : Bool :=
  let oneYearVolumes := (oneYearPoints.filterMap (·.volume)).filter (fun v => decide (0 < v))
  match median oneYearVolumes with
  | none => false
  | some volumeMedian =>
    if 0 < volumeMedian then
      decide (2 ≤ (oneYearPoints.filter (fun point =>
        match point.volume with
        | some v => decide (volumeMedian * 6 ≤ v) && decide ((10 : ℚ) ≤ |point.retPct|)
        | none => false)).length)
    else false

/-- Signal 3 scan of `getMarketStructureWarnings` (route.ts lines
216-242): from start index `i`, a ≥80% rise over 10 sessions followed by
a ≥35% drawdown within the next 14 sessions; first hit wins.  The step
counter starts at the list length, which bounds the loop; `maxPumpPct` /
`maxDumpPct` only feed the human-readable details text and are not part
of this id-level embedding.  The `none` branch mirrors `Math.min()` of an
empty window being `Infinity` (never a hit); the guard makes the window
14 long, so it is unreachable. -/
def pumpDumpScan (c : List ℚ) : ℕ → ℕ → Bool
  | 0, _ => false
  | fuel + 1, i =>
    if i + 24 < c.length then
      let startPrice := c.getD i 0
      let pumpPeak := c.getD (i + 10) 0
      if startPrice ≤ 0 ∨ pumpPeak ≤ 0 then pumpDumpScan c fuel (i + 1)
      else
        let pumpPct := (pumpPeak - startPrice) / startPrice * 100
        if pumpPct < 80 then pumpDumpScan c fuel (i + 1)
        else
          match ((c.take (i + 25)).drop (i + 11)).min? with
          | none => pumpDumpScan c fuel (i + 1)
          | some postPumpMin =>
            if (35 : ℚ) ≤ (pumpPeak - postPumpMin) / pumpPeak * 100 then true
            else pumpDumpScan c fuel (i + 1)
    else false

def pumpDumpDetected (c : List ℚ) : Bool := pumpDumpScan c c.length 0

/-- Signal 4 of `getMarketStructureWarnings`: count of indices `i` (from
1 while `i + 5 < length`) where a ≥22% up-spike over the previous close
reverses by ≥18% within 5 sessions, all three closes positive. -/
def spikeReversalEvents (c : List ℚ) : ℕ :=
  ((List.range c.length).filter (fun i =>
    decide (1 ≤ i) && decide (i + 5 < c.length) &&
    (let previousClose := c.getD (i - 1) 0
     let spikeClose := c.getD i 0
     let futureClose := c.getD (i + 5) 0
     !(decide (previousClose ≤ 0) || decide (spikeClose ≤ 0) || decide (futureClose ≤ 0)) &&
     decide ((22 : ℚ) ≤ (spikeClose - previousClose) / previousClose * 100) &&
     decide ((18 : ℚ) ≤ (spikeClose - futureClose) / spikeClose * 100)))).length

/-- Signal 5 of `getMarketStructureWarnings`, stated on the variances:
the source compares `recentVol = √recentSq` against `2.2 · √baselineSq`
and `7`; squaring (see `stdDev_conditions_iff` below) gives this
decidable equivalent, with `2.2² = 121/25 · … = 4.84` and `7² = 49`. -/
def volRegimeFlag (oneYearReturns : List ℚ) : Bool :=
  if 170 ≤ oneYearReturns.length then
    let recentSq := stdDevSq (oneYearReturns.drop (oneYearReturns.length - 30))
    let baselineSq := stdDevSq
      ((oneYearReturns.take (oneYearReturns.length - 30)).drop (oneYearReturns.length - 150))
    decide (0 < baselineSq) && decide (121 / 25 * baselineSq ≤ recentSq) &&
      decide ((49 : ℚ) ≤ recentSq)
  else false

/-- route.ts `getMarketStructureWarnings`, reduced to the ordered list of
emitted signal ids (reason/details/source fields of each pushed signal
are fixed text plus formatted statistics). -/
def getMarketStructureWarningIds
    (closes : List ℚ) (closeRaw volumeRaw : List (Option ℚ)) : List String :=
  let structurePoints := buildStructurePoints closeRaw volumeRaw
  let oneYearPoints := structurePoints.drop (structurePoints.length - 252)
  let oneYearCloses := closes.drop (closes.length - 260)
  (if 3 ≤ (oneYearPoints.filter (fun p => decide ((18 : ℚ) ≤ |p.retPct|))).length
    then ["structure-extreme-moves"] else []) ++
  (if volumeBurstFlag oneYearPoints then ["structure-volume-burst"] else []) ++
  (if pumpDumpDetected oneYearCloses then ["structure-pump-dump"] else []) ++
  (if 1 ≤ spikeReversalEvents oneYearCloses then ["structure-spike-reversal"] else []) ++
  (if volRegimeFlag (oneYearPoints.map (·.retPct)) then ["structure-vol-regime-shift"] else [])

inductive FetchErr where
  | noPriceData
  | emptyPrices
  | insufficientHistory
deriving DecidableEq, Repr

structure Metrics where
  currentPrice : ℚ
  sma200 : ℚ
  ath : ℚ
  passes : Bool
  dailyChangePct : Option ℚ
  structureWarnings : List String
deriving DecidableEq, Repr

def ATH_THRESHOLD : ℚ := 1 / 2

/-- route.ts `fetchMetrics` after the HTTP fetch: computation over the
payload's close/volume arrays (absent array modelled as `none`); thrown
errors become `Except.error`.  The symbol passthrough field is omitted. -/
def fetchMetrics (closeField volumeField : Option (List (Option ℚ))) :
    Except FetchErr Metrics :=
  match closeField with
  | none => .error .noPriceData
  | some closeRaw =>
    let volumeRaw := volumeField.getD []
    let closes := closeRaw.filterMap id
    match closes.getLast? with
    | none => .error .emptyPrices
    | some currentPrice =>
      let previousClose : Option ℚ :=
        if 1 < closes.length then closes[closes.length - 2]? else none
      let ath := closes.foldl (fun mx val => if mx < val then val else mx) (closes.headD 0)
      let last200 := closes.drop (closes.length - 200)
      if last200.length < 50 then .error .insufficientHistory
      else
        let sma200 := last200.sum / (last200.length : ℚ)
        let passes := decide (sma200 < currentPrice) && decide (ath * ATH_THRESHOLD ≤ currentPrice)
        let dailyChangePct : Option ℚ :=
          match previousClose with
          | some pc => if pc = 0 then none else some ((currentPrice - pc) / pc * 100)
          | none => none
        .ok { currentPrice, sma200, ath, passes, dailyChangePct,
              structureWarnings := getMarketStructureWarningIds closes closeRaw volumeRaw }

structure WarningSignal where
  id : String
  category : String
  reason : String
  details : String
  sourceUrl : Option String
  sourceLabel : Option String
deriving DecidableEq, Repr

/-- The JS `Map` key built in `fetchRiskSignals`:
`${id}:${details}:${sourceUrl ?? ""}`. -/
def signalKey (s : WarningSignal) : String :=
  s.id ++ ":" ++ s.details ++ ":" ++ (s.sourceUrl.getD "")

/-- JS `Map.prototype.set`: update an existing key in place (keeping its
position), else append. -/
def mapUpsert (m : List (String × WarningSignal)) (k : String) (v : WarningSignal) :
    List (String × WarningSignal) :=
  if m.any (fun p => p.1 == k) then m.map (fun p => if p.1 = k then (k, v) else p)
  else m ++ [(k, v)]

/-- The construction `new Map(signals.map((s) => [key s, s]))` as an insertion-ordered
association list. -/
def buildSignalMap (signals : List WarningSignal) : List (String × WarningSignal) :=
  signals.foldl (fun m s => mapUpsert m (signalKey s) s) []

structure RiskResult where
  hasRiskWarning : Bool
  warningReasons : List String
  warningSignals : List WarningSignal
deriving DecidableEq, Repr

/-- route.ts `fetchRiskSignals` after the two network sub-checks: the
news / regulatory options stand for the sub-checks' flagged signals. -/
def fetchRiskSignals (structureWarnings : List WarningSignal)
    (adverseNewsSignal sebiSignal : Option WarningSignal) : RiskResult :=
  let signals := structureWarnings ++ adverseNewsSignal.toList ++ sebiSignal.toList
  let dedupedSignals := (buildSignalMap signals).map Prod.snd
  let dedupedReasons := dedupedSignals.map (·.reason)
  { hasRiskWarning := decide (0 < dedupedReasons.length),
    warningReasons := dedupedReasons,
    warningSignals := dedupedSignals }

structure SectorInfo where
  symbol : Str
  sector : Option String
  industry : Option String
  category : Option String
  name : Option String
  dailyChangePct : Option ℚ
  hasRiskWarning : Bool
  warningReasons : List String
  warningSignals : List WarningSignal
deriving DecidableEq, Repr

/-- sectors.ts `ALLOWED_INDUSTRIES`. -/
def ALLOWED_INDUSTRIES : List String :=
  ["Iron & Steel", "Aluminium & Copper", "Mining & Mineral products", "Metals & Mining",
   "Aerospace & Defense", "Defence",
   "Public Sector Bank", "Private Sector Bank", "Banks",
   "Passenger Cars & Utility Vehicles", "2/3 Wheelers", "Commercial Vehicles",
   "Auto Ancillaries", "Automobiles",
   "Asset Management", "Stock/ Commodity Brokers", "Finance", "Financial Services",
   "Holding Companies"]

/-- route.ts `filterBySector`: `!info.industry` also rejects the (falsy)
empty string. -/
def filterBySector (sectorInfos : List SectorInfo) : List SectorInfo :=
  sectorInfos.filter (fun info =>
    match info.industry with
    | none => false
    | some industry =>
      if industry = "" then false else ALLOWED_INDUSTRIES.contains industry)

/-! Claim-level definitions: predicates and reference implementations
stated in the specification's words, to be compared against the
source-derived definitions above, plus concrete example inputs. -/

/-- The needle occurs somewhere in the haystack (claim-level substring property). -/
def substrOccurs (hay needle : Str) : Prop :=
  ∃ pre post, hay = pre ++ needle ++ post

/-- Claim-level bounded-token property: the token occurs bounded by
non-alphanumeric characters or string edges. -/
def boundedTokenOccurs (hay tok : Str) : Prop :=
  tok ≠ [] ∧ ∃ pre post, hay = pre ++ tok ++ post ∧
    (pre = [] ∨ ∃ c, pre.getLast? = some c ∧ isAlnum c = false) ∧
    (post = [] ∨ ∃ c, post.head? = some c ∧ isAlnum c = false)

/-- Modelled from the claim's words (C3): the identity match succeeds iff
the symbol (length ≥ 3) matches as a bounded token, OR the name — with ≥4
alphanumeric characters after stripping punctuation — occurs as a
substring literally or in compacted form. -/
def claimC3Check (haystack symbol : Str) (name : Option Str) : Bool :=
  (decide (3 ≤ symbol.length) && hasBoundedTokenMatch (normalizeText haystack) (jsToLower symbol)) ||
  (match name with
   | some n =>
     decide (4 ≤ (compactStr (jsToLower n)).length) &&
       (jsIncludes (normalizeText haystack) (jsToLower n) ||
        jsIncludes (compactStr (normalizeText haystack)) (compactStr (jsToLower n)))
   | none => false)

/-- The code's identity-match behaviour, claim-level: as `claimC3Check`
but with the length-4 guard applying only to the compacted comparison. -/
def amendedC3Prop (haystack symbol : Str) (name : Option Str) : Prop :=
  (3 ≤ symbol.length ∧ boundedTokenOccurs (normalizeText haystack) (jsToLower symbol)) ∨
  (∃ n, name = some n ∧
    (substrOccurs (normalizeText haystack) (jsToLower n) ∨
     (4 ≤ (compactStr (jsToLower n)).length ∧
      substrOccurs (compactStr (normalizeText haystack)) (compactStr (jsToLower n)))))

/-- Modelled from the claim's words (C4): dedup by the
(id, details, sourceUrl) triple keeping the first occurrence. -/
def firstSeenTripleDedup (signals : List WarningSignal) : List WarningSignal :=
  signals.foldl (fun acc s =>
    if acc.any (fun t => (t.id, t.details, t.sourceUrl) == (s.id, s.details, s.sourceUrl))
    then acc else acc ++ [s]) []

/-- Map keys in order of first occurrence. -/
def firstSeenKeys (signals : List WarningSignal) : List String :=
  signals.foldl (fun ks s => if signalKey s ∈ ks then ks else ks ++ [signalKey s]) []

/-- Reference dedup describing what the JS `Map` construction produces:
for each key in first-seen order, the last signal carrying that key. -/
def dedupKeepLast (signals : List WarningSignal) : List WarningSignal :=
  (firstSeenKeys signals).filterMap
    (fun k => signals.reverse.find? (fun s => signalKey s == k))

/-- Claim-level pump-dump condition at start index `i` of the
trailing-year close series (C5). -/
def pumpDumpCondAt (c : List ℚ) (i : ℕ) : Prop :=
  i + 24 < c.length ∧ 0 < c.getD i 0 ∧ 0 < c.getD (i + 10) 0 ∧
  (80 : ℚ) ≤ (c.getD (i + 10) 0 - c.getD i 0) / c.getD i 0 * 100 ∧
  ∃ mn, ((c.take (i + 25)).drop (i + 11)).min? = some mn ∧
    (35 : ℚ) ≤ (c.getD (i + 10) 0 - mn) / c.getD (i + 10) 0 * 100

/-- Example series (C5): +90% over 10 sessions, then a 40% drawdown
within the following 14 sessions. -/
def pumpDumpExample : List ℚ :=
  [100, 109, 118, 127, 136, 145, 154, 163, 172, 181, 190,
   180, 175, 170, 165, 160, 155, 150, 145, 140, 135, 130, 125, 120, 114]

/-- Example series (C5): +90% over 10 sessions, then only a 20%
drawdown. -/
def pumpDumpCounterSeries : List ℚ :=
  [100, 109, 118, 127, 136, 145, 154, 163, 172, 181, 190,
   185, 183, 180, 178, 175, 172, 170, 168, 165, 162, 160, 158, 155, 152]

/-- Two structurally identical signals apart from `reason` (C4): same
dedup key, different payload. -/
def sigDupA : WarningSignal :=
  ⟨"structure-extreme-moves", "structure", "r1", "d", none, none⟩

def sigDupB : WarningSignal :=
  ⟨"structure-extreme-moves", "structure", "r2", "d", none, none⟩

/-- Page sequence (C2): page 2 repeats page 1's only symbol, so it
yields no new symbol, yet reports `hasNext`. -/
def pagesAllKnown : ℕ → PageData := fun n =>
  match n with
  | 1 => ⟨[['A']], true⟩
  | 2 => ⟨[['A']], true⟩
  | _ => ⟨[], false⟩

/-- Close series of C1's example: 100 repeated, then 150. -/
def exCloseRaw : List (Option ℚ) := List.replicate 59 (some 100) ++ [some 150]

/-- The metrics `fetchMetrics` computes for `exCloseRaw`. -/
def exMetrics : Metrics :=
  { currentPrice := 150, sma200 := 605 / 6, ath := 150, passes := true,
    dailyChangePct := some 50, structureWarnings := [] }

/-- A sector record in the allow-list (witness input for C9). -/
def siBank : SectorInfo :=
  { symbol := "SBIN".toList, sector := some "Banks", industry := some "Banks",
    category := some "PSU Banks", name := some "State Bank of India",
    dailyChangePct := none, hasRiskWarning := false,
    warningReasons := [], warningSignals := [] }

/-- A sector record with no industry (witness input for C9). -/
def siNull : SectorInfo :=
  { symbol := "XYZ".toList, sector := none, industry := none,
    category := some "Auto", name := none,
    dailyChangePct := none, hasRiskWarning := false,
    warningReasons := [], warningSignals := [] }

/-- A listing row linking to a company page (witness input for C8). -/
def rowTCS : Row := { href := some "/company/TCS/".toList, firstCellText := [] }

/-! ## Theorems -/

/-- C9: the sector allow-list filter retains exactly the records whose
`industry` is present and a member of `ALLOWED_INDUSTRIES`, preserving
order (it is a `List.filter`); a record with `industry = none` is always
excluded. -/
theorem claim_C9 : ∀ l : List SectorInfo,
    filterBySector l =
      l.filter (fun r => r.industry.any (fun s => ALLOWED_INDUSTRIES.contains s)) ∧
    ∀ r ∈ filterBySector l, r.industry ≠ none := by
  intro l
  constructor
  · refine List.filter_congr ?_
    intro r _
    cases h : r.industry with
    | none => simp [h]
    | some s =>
      by_cases hs : s = ""
      · subst hs
        simp only [h, Option.any_some]
        decide
      · simp [h, hs]
  · intro r hr
    have hmem := List.of_mem_filter hr
    cases h : r.industry with
    | none => simp [filterBySector, h] at hmem
    | some s => simp [h]

/-- C9 witness: `siBank` (industry "Banks") survives the filter and has a
non-null industry. -/
theorem claim_C9_witness : siBank.industry ≠ none :=
  (claim_C9 [siNull, siBank]).2 siBank (by decide)

theorem buildSignalMap_append (l : List WarningSignal) (s : WarningSignal) :
    buildSignalMap (l ++ [s]) = mapUpsert (buildSignalMap l) (signalKey s) s := by
  simp [buildSignalMap, List.foldl_append]

theorem firstSeenKeys_append (l : List WarningSignal) (s : WarningSignal) :
    firstSeenKeys (l ++ [s]) =
      if signalKey s ∈ firstSeenKeys l then firstSeenKeys l
      else firstSeenKeys l ++ [signalKey s] := by
  simp [firstSeenKeys, List.foldl_append]

/-- The JS `Map` built by `fetchRiskSignals`: its keys are the signal
keys in first-seen order, and each key maps to the LAST signal carrying
that key. -/
theorem buildSignalMap_spec (l : List WarningSignal) :
    (buildSignalMap l).map Prod.fst = firstSeenKeys l ∧
    ∀ p ∈ buildSignalMap l,
      l.reverse.find? (fun s => signalKey s == p.1) = some p.2 := by
  induction l using List.reverseRecOn with
  | nil => simp [buildSignalMap, firstSeenKeys]
  | append_singleton l s ih =>
    obtain ⟨ihKeys, ihLast⟩ := ih
    rw [buildSignalMap_append, firstSeenKeys_append]
    have hmem : (buildSignalMap l).any (fun p => p.1 == signalKey s) = true ↔
        signalKey s ∈ firstSeenKeys l := by
      rw [List.any_eq_true]
      constructor
      · rintro ⟨p, hp, hpk⟩
        rw [beq_iff_eq] at hpk
        rw [← ihKeys, ← hpk]
        exact List.mem_map_of_mem Prod.fst hp
      · intro hk
        rw [← ihKeys] at hk
        obtain ⟨p, hp, hpk⟩ := List.mem_map.1 hk
        exact ⟨p, hp, by rw [beq_iff_eq]; exact hpk⟩
    unfold mapUpsert
    by_cases hk : signalKey s ∈ firstSeenKeys l
    · rw [if_pos (hmem.2 hk), if_pos hk]
      constructor
      · rw [List.map_map, ← ihKeys]
        refine List.map_congr_left ?_
        intro p _
        by_cases hp : p.1 = signalKey s <;> simp [hp]
      · intro p hp
        obtain ⟨q, hq, hqe⟩ := List.mem_map.1 hp
        rw [List.reverse_append, List.reverse_singleton, List.singleton_append,
          List.find?_cons]
        by_cases hq1 : q.1 = signalKey s
        · have hpe : p = (signalKey s, s) := by rw [← hqe]; simp [hq1]
          rw [hpe]
          simp
        · have hpe : p = q := by rw [← hqe]; simp [hq1]
          subst hpe
          have hne : (signalKey s == p.1) = false := by
            rw [beq_eq_false_iff_ne]
            intro hcon
            exact hq1 hcon.symm
          rw [hne]
          exact ihLast p hq
    · rw [if_neg (fun hc => hk (hmem.1 hc)), if_neg hk]
      constructor
      · simp [ihKeys]
      · intro p hp
        rw [List.mem_append] at hp
        rw [List.reverse_append, List.reverse_singleton, List.singleton_append,
          List.find?_cons]
        rcases hp with hp | hp
        · have hq1 : p.1 ≠ signalKey s := by
            intro hcon
            apply hk
            rw [← ihKeys, ← hcon]
            exact List.mem_map_of_mem Prod.fst hp
          have hne : (signalKey s == p.1) = false := by
            rw [beq_eq_false_iff_ne]
            intro hcon
            exact hq1 hcon.symm
          rw [hne]
          exact ihLast p hp
        · have hpe : p = (signalKey s, s) := by simpa using hp
          rw [hpe]
          simp

theorem filterMap_of_forall {α β : Type} (f : α → Option β) :
    ∀ m : List (α × β), (∀ p ∈ m, f p.1 = some p.2) →
      (m.map Prod.fst).filterMap f = m.map Prod.snd := by
  intro m
  induction m with
  | nil => simp
  | cons p t ih =>
    intro h
    have hp := h p (by simp)
    simp only [List.map_cons, List.filterMap_cons, hp]
    rw [ih (fun q hq => h q (by simp [hq]))]

/-- C4 (amended): the merged warning set is the input sequence
deduplicated by the concatenated key `id:details:(sourceUrl ?? "")`,
keeping first-seen key order but the LAST signal carrying each key;
`warningReasons` lists the kept signals' reasons in that order, and
`hasRiskWarning` is true iff the deduplicated list is non-empty. -/
theorem claim_C4_amended :
    ∀ (structureWarnings : List WarningSignal)
      (adverseNewsSignal sebiSignal : Option WarningSignal),
    (fetchRiskSignals structureWarnings adverseNewsSignal sebiSignal).warningSignals =
      dedupKeepLast (structureWarnings ++ adverseNewsSignal.toList ++ sebiSignal.toList) ∧
    (fetchRiskSignals structureWarnings adverseNewsSignal sebiSignal).warningReasons =
      (fetchRiskSignals structureWarnings adverseNewsSignal sebiSignal).warningSignals.map
        (fun s => s.reason) ∧
    ((fetchRiskSignals structureWarnings adverseNewsSignal sebiSignal).hasRiskWarning = true ↔
      (fetchRiskSignals structureWarnings adverseNewsSignal sebiSignal).warningSignals ≠ []) := by
  intro sw news sebi
  set sigs := sw ++ news.toList ++ sebi.toList with hsigs
  obtain ⟨hKeys, hLast⟩ := buildSignalMap_spec sigs
  have hmain : (buildSignalMap sigs).map Prod.snd = dedupKeepLast sigs := by
    rw [dedupKeepLast, ← hKeys]
    exact (filterMap_of_forall _ (buildSignalMap sigs) hLast).symm
  refine ⟨hmain, rfl, ?_⟩
  simp only [fetchRiskSignals, hmain]
  rw [decide_eq_true_iff]
  rw [← hmain]
  simp [List.length_pos]

/-- C4 counterexample: two signals agreeing on (id, details, sourceUrl)
but with different `reason` fields.  First-seen dedup (the claim) keeps
`sigDupA`, but the code keeps `sigDupB`'s fields, so `warningReasons` is
`["r2"]`, not `["r1"]`. -/
theorem claim_C4_counterexample :
    (sigDupA.id, sigDupA.details, sigDupA.sourceUrl) =
      (sigDupB.id, sigDupB.details, sigDupB.sourceUrl) ∧
    sigDupA ≠ sigDupB ∧
    firstSeenTripleDedup [sigDupA, sigDupB] = [sigDupA] ∧
    (firstSeenTripleDedup [sigDupA, sigDupB]).map (fun s => s.reason) = ["r1"] ∧
    (fetchRiskSignals [sigDupA, sigDupB] none none).warningSignals = [sigDupB] ∧
    (fetchRiskSignals [sigDupA, sigDupB] none none).warningReasons = ["r2"] := by
  exact ⟨by decide, by decide, by decide, by decide, by decide, by decide⟩

/-- Pages fetched by the discovery loop, characterized: consecutive pages
from the start while the continue-condition (`hasNext` and a non-empty
symbol set) held on every earlier page. -/
theorem discoverGo_mem_pages (f : ℕ → PageData) :
    ∀ (fuel page : ℕ) (hn : Bool) (acc : List Str) (q : ℕ),
      q ∈ (discoverGo f fuel page hn acc).1 ↔
        (hn = true ∧ page ≤ q ∧ q ≤ PAGE_LIMIT ∧ q < page + fuel ∧
         ∀ r, page ≤ r → r < q → ((f r).hasNext = true ∧ (f r).symbols ≠ [])) := by
  intro fuel
  induction fuel with
  | zero =>
    intro page hn acc q
    constructor
    · intro h
      simp [discoverGo] at h
    · rintro ⟨-, h1, -, h2, -⟩
      omega
  | succ fuel ih =>
    intro page hn acc q
    by_cases hcond : hn = true ∧ page ≤ PAGE_LIMIT
    · rw [show (discoverGo f (fuel + 1) page hn acc).1 =
          page :: (discoverGo f fuel (page + 1)
            ((f page).hasNext && !(f page).symbols.isEmpty)
            ((f page).symbols.foldl insertSym acc)).1 by
        simp [discoverGo, if_pos hcond]]
      rw [List.mem_cons, ih]
      constructor
      · rintro (rfl | ⟨hhn, h1, h2, h3, h4⟩)
        · exact ⟨hcond.1, le_refl _, hcond.2, by omega,
            fun r hr1 hr2 => absurd hr2 (by omega)⟩
        · refine ⟨hcond.1, by omega, h2, by omega, ?_⟩
          intro r hr1 hr2
          rcases (by omega : page < r ∨ r = page) with hr | rfl
          · exact h4 r (by omega) hr2
          · rw [Bool.and_eq_true] at hhn
            refine ⟨hhn.1, ?_⟩
            intro hnil
            have := hhn.2
            rw [hnil] at this
            simp at this
      · rintro ⟨hhn, h1, h2, h3, h4⟩
        rcases (by omega : q = page ∨ page < q) with rfl | hq
        · exact Or.inl rfl
        · right
          have hcont := h4 page (le_refl _) hq
          refine ⟨?_, by omega, h2, by omega,
            fun r hr1 hr2 => h4 r (by omega) hr2⟩
          rw [Bool.and_eq_true]
          refine ⟨hcont.1, ?_⟩
          simp [hcont.2]
    · constructor
      · intro h
        rw [show (discoverGo f (fuel + 1) page hn acc).1 = [] by
          simp [discoverGo, if_neg hcond]] at h
        simp at h
      · rintro ⟨hhn, h1, h2, -, -⟩
        exact absurd ⟨hhn, by omega⟩ hcond

theorem fetchedPages_mem (f : ℕ → PageData) (q : ℕ) :
    q ∈ fetchedPages f ↔
      (1 ≤ q ∧ q ≤ PAGE_LIMIT ∧
       ∀ r, 1 ≤ r → r < q → ((f r).hasNext = true ∧ (f r).symbols ≠ [])) := by
  unfold fetchedPages
  rw [discoverGo_mem_pages]
  constructor
  · rintro ⟨-, h1, h2, -, h4⟩
    exact ⟨h1, h2, h4⟩
  · rintro ⟨h1, h2, h4⟩
    refine ⟨rfl, h1, h2, ?_, h4⟩
    have : PAGE_LIMIT = 100 := rfl
    omega

/-- C2 (amended): the loop fetches page p+1 exactly when it fetched page
p, page p reported `hasNext`, page p yielded at least one symbol — new or
not — and p+1 is within the hard cap; and no fetched page exceeds the
cap.  (The claim's "at least one NEW symbol" is what fails: the code
tests `pageSymbols.length > 0`, not novelty.) -/
theorem claim_C2_amended : ∀ (f : ℕ → PageData) (p : ℕ), 1 ≤ p →
    ((p + 1 ∈ fetchedPages f ↔
      p ∈ fetchedPages f ∧ (f p).hasNext = true ∧ (f p).symbols ≠ [] ∧
        p + 1 ≤ PAGE_LIMIT) ∧
     ∀ q ∈ fetchedPages f, q ≤ PAGE_LIMIT) := by
  intro f p hp
  constructor
  · rw [fetchedPages_mem, fetchedPages_mem]
    constructor
    · rintro ⟨-, h2, h4⟩
      refine ⟨⟨hp, by omega, fun r hr1 hr2 => h4 r hr1 (by omega)⟩,
        (h4 p hp (by omega)).1, (h4 p hp (by omega)).2, h2⟩
    · rintro ⟨⟨h1, h2, h4⟩, hnext, hsym, hcap⟩
      refine ⟨by omega, hcap, ?_⟩
      intro r hr1 hr2
      rcases (by omega : r < p ∨ r = p) with hr | rfl
      · exact h4 r hr1 hr
      · exact ⟨hnext, hsym⟩
  · intro q hq
    exact ((fetchedPages_mem f q).1 hq).2.1

/-- C2 amended witness at `pagesAllKnown`, p = 1. -/
theorem claim_C2_witness :
    ((2 ∈ fetchedPages pagesAllKnown ↔
      1 ∈ fetchedPages pagesAllKnown ∧ (pagesAllKnown 1).hasNext = true ∧
        (pagesAllKnown 1).symbols ≠ [] ∧ 2 ≤ PAGE_LIMIT) ∧
     ∀ q ∈ fetchedPages pagesAllKnown, q ≤ PAGE_LIMIT) :=
  claim_C2_amended pagesAllKnown 1 (by decide)

/-- C2 counterexample: page 2 of `pagesAllKnown` yields only symbols
already in the running set after page 1, yet the loop fetches page 3. -/
theorem claim_C2_counterexample :
    3 ∈ fetchedPages pagesAllKnown ∧
    (pagesAllKnown 2).symbols ≠ [] ∧
    ∀ s ∈ (pagesAllKnown 2).symbols,
      s ∈ (pagesAllKnown 1).symbols.foldl insertSym [] := by
  decide

theorem fetchMetrics_none_eq (vo : Option (List (Option ℚ))) :
    fetchMetrics none vo = .error .noPriceData := rfl

theorem fetchMetrics_empty_eq (cr : List (Option ℚ)) (vo : Option (List (Option ℚ)))
    (h : cr.filterMap id = []) :
    fetchMetrics (some cr) vo = .error .emptyPrices := by
  simp [fetchMetrics, h]

theorem fetchMetrics_insufficient_eq (cr : List (Option ℚ)) (vo : Option (List (Option ℚ)))
    (cp : ℚ) (hlast : (cr.filterMap id).getLast? = some cp)
    (hlen : ((cr.filterMap id).drop ((cr.filterMap id).length - 200)).length < 50) :
    fetchMetrics (some cr) vo = .error .insufficientHistory := by
  simp only [fetchMetrics, hlast]
  rw [if_pos hlen]

theorem fetchMetrics_ok_fields (cr : List (Option ℚ)) (vo : Option (List (Option ℚ)))
    (cp : ℚ) (hlast : (cr.filterMap id).getLast? = some cp)
    (hlen : ¬ ((cr.filterMap id).drop ((cr.filterMap id).length - 200)).length < 50) :
    ∃ m, fetchMetrics (some cr) vo = .ok m ∧
      m.currentPrice = cp ∧
      m.sma200 = ((cr.filterMap id).drop ((cr.filterMap id).length - 200)).sum /
        (((cr.filterMap id).drop ((cr.filterMap id).length - 200)).length : ℚ) ∧
      m.ath = (cr.filterMap id).foldl (fun mx val => if mx < val then val else mx)
        ((cr.filterMap id).headD 0) ∧
      (m.passes = true ↔
        m.sma200 < m.currentPrice ∧ m.ath * ATH_THRESHOLD ≤ m.currentPrice) := by
  simp only [fetchMetrics, hlast]
  rw [if_neg hlen]
  refine ⟨_, rfl, rfl, rfl, rfl, ?_⟩
  simp only [Bool.and_eq_true, decide_eq_true_iff]

/-- C7: the technical-metrics computation fails with `noPriceData` exactly
when the close series is absent, with `emptyPrices` exactly when it holds
no numeric entry, with `insufficientHistory` exactly when fewer than 50
samples remain in the trailing 200-sample window, and succeeds
otherwise. -/
theorem claim_C7 : ∀ closeField volumeField : Option (List (Option ℚ)),
    (fetchMetrics closeField volumeField = .error .noPriceData ↔ closeField = none) ∧
    (fetchMetrics closeField volumeField = .error .emptyPrices ↔
      ∃ closeRaw, closeField = some closeRaw ∧ closeRaw.filterMap id = []) ∧
    (fetchMetrics closeField volumeField = .error .insufficientHistory ↔
      ∃ closeRaw, closeField = some closeRaw ∧ closeRaw.filterMap id ≠ [] ∧
        ((closeRaw.filterMap id).drop ((closeRaw.filterMap id).length - 200)).length < 50) ∧
    ((∃ m, fetchMetrics closeField volumeField = .ok m) ↔
      ∃ closeRaw, closeField = some closeRaw ∧
        50 ≤ ((closeRaw.filterMap id).drop ((closeRaw.filterMap id).length - 200)).length) := by
  intro co vo
  rcases co with _ | cr
  · rw [fetchMetrics_none_eq]
    exact ⟨by simp, by simp, by simp, by simp⟩
  · rcases hlast : (cr.filterMap id).getLast? with _ | cp
    · have hnil : cr.filterMap id = [] := by
        rwa [List.getLast?_eq_none_iff] at hlast
      rw [fetchMetrics_empty_eq cr vo hnil]
      refine ⟨by simp, ⟨fun _ => ⟨cr, rfl, hnil⟩, fun _ => rfl⟩, ?_, ?_⟩
      · constructor
        · intro h
          exact absurd h (by simp)
        · rintro ⟨cr', hcr, hne', -⟩
          rw [Option.some_inj] at hcr
          subst hcr
          exact absurd hnil hne'
      · constructor
        · rintro ⟨m, hm⟩
          exact absurd hm (by simp)
        · rintro ⟨cr', hcr, h50⟩
          rw [Option.some_inj] at hcr
          subst hcr
          rw [hnil] at h50
          simp at h50
    · have hne : cr.filterMap id ≠ [] := by
        intro h
        rw [h] at hlast
        simp at hlast
      by_cases hlen :
          ((cr.filterMap id).drop ((cr.filterMap id).length - 200)).length < 50
      · rw [fetchMetrics_insufficient_eq cr vo cp hlast hlen]
        refine ⟨by simp, ?_, ⟨fun _ => ⟨cr, rfl, hne, hlen⟩, fun _ => rfl⟩, ?_⟩
        · constructor
          · intro h
            exact absurd h (by simp)
          · rintro ⟨cr', hcr, hnil'⟩
            rw [Option.some_inj] at hcr
            subst hcr
            exact absurd hnil' hne
        · constructor
          · rintro ⟨m, hm⟩
            exact absurd hm (by simp)
          · rintro ⟨cr', hcr, h50⟩
            rw [Option.some_inj] at hcr
            subst hcr
            omega
      · obtain ⟨m, hm, -, -, -, -⟩ := fetchMetrics_ok_fields cr vo cp hlast hlen
        rw [hm]
        refine ⟨by simp, ?_, ?_, ⟨fun _ => ⟨cr, rfl, by omega⟩, fun _ => ⟨m, rfl⟩⟩⟩
        · constructor
          · intro h
            exact absurd h (by simp)
          · rintro ⟨cr', hcr, hnil'⟩
            rw [Option.some_inj] at hcr
            subst hcr
            exact absurd hnil' hne
        · constructor
          · intro h
            exact absurd h (by simp)
          · rintro ⟨cr', hcr, -, h50⟩
            rw [Option.some_inj] at hcr
            subst hcr
            omega

theorem foldl_max_aux (t : List ℚ) : ∀ a : ℚ,
    (t.foldl (fun mx val => if mx < val then val else mx) a = a ∨
     t.foldl (fun mx val => if mx < val then val else mx) a ∈ t) ∧
    a ≤ t.foldl (fun mx val => if mx < val then val else mx) a ∧
    ∀ x ∈ t, x ≤ t.foldl (fun mx val => if mx < val then val else mx) a := by
  induction t with
  | nil => intro a; simp
  | cons b t ih =>
    intro a
    simp only [List.foldl_cons]
    obtain ⟨ih1, ih2, ih3⟩ := ih (if a < b then b else a)
    have has : a ≤ if a < b then b else a := by
      split
      · exact le_of_lt (by assumption)
      · exact le_refl a
    have hbs : b ≤ if a < b then b else a := by
      split
      · exact le_refl b
      · exact not_lt.1 (by assumption)
    refine ⟨?_, le_trans has ih2, ?_⟩
    · rcases ih1 with h | h
      · rw [h]
        by_cases hab : a < b
        · rw [if_pos hab]
          exact Or.inr (List.mem_cons_self b t)
        · rw [if_neg hab]
          exact Or.inl rfl
      · exact Or.inr (List.mem_cons_of_mem b h)
    · intro x hx
      rcases List.mem_cons.1 hx with rfl | hx
      · exact le_trans hbs ih2
      · exact ih3 x hx

/-- The `reduce`-style all-time-high fold of `fetchMetrics` computes the
maximum of a non-empty close list. -/
theorem athFold_spec (l : List ℚ) (hl : l ≠ []) :
    l.foldl (fun mx val => if mx < val then val else mx) (l.headD 0) ∈ l ∧
    ∀ x ∈ l, x ≤ l.foldl (fun mx val => if mx < val then val else mx) (l.headD 0) := by
  rcases l with _ | ⟨h, t⟩
  · exact absurd rfl hl
  · simp only [List.headD_cons, List.foldl_cons]
    have hh : (if h < h then h else h) = h := by split <;> rfl
    rw [hh]
    obtain ⟨h1, h2, h3⟩ := foldl_max_aux t h
    refine ⟨?_, ?_⟩
    · rcases h1 with he | he
      · rw [he]
        exact List.mem_cons_self h t
      · exact List.mem_cons_of_mem h he
    · intro x hx
      rcases List.mem_cons.1 hx with rfl | hx
      · exact h2
      · exact h3 x hx

theorem filterMap_id_replicate_some (n : ℕ) (a : ℚ) :
    (List.replicate n (some a)).filterMap id = List.replicate n a := by
  induction n with
  | zero => rfl
  | succ n ih => simp [List.replicate_succ, ih]

theorem exCloseRaw_filterMap :
    exCloseRaw.filterMap id = List.replicate 59 (100 : ℚ) ++ [150] := by
  simp [exCloseRaw, filterMap_id_replicate_some]

theorem exCloseRaw_getLast : (exCloseRaw.filterMap id).getLast? = some 150 := by
  rw [exCloseRaw_filterMap]
  simp

theorem exCloseRaw_window :
    ¬ ((exCloseRaw.filterMap id).drop
        ((exCloseRaw.filterMap id).length - 200)).length < 50 := by
  rw [exCloseRaw_filterMap]
  simp

/-- C1: on success, `ath` is the maximum numeric close, `currentPrice`
the last numeric close, `sma200` the mean of the trailing ≤200 closes,
and `passes` holds iff `currentPrice > sma200` and
`currentPrice ≥ ath · ATH_THRESHOLD`; the claim's `[100 repeated, 150]`
series passes. -/
theorem claim_C1 :
    (∀ (closeField volumeField : Option (List (Option ℚ))) (m : Metrics),
      fetchMetrics closeField volumeField = .ok m →
      (let closes := (closeField.getD []).filterMap id
       let trailing := closes.drop (closes.length - 200)
       (m.ath ∈ closes ∧ ∀ x ∈ closes, x ≤ m.ath) ∧
       m.currentPrice = closes.getLast?.getD 0 ∧
       m.sma200 = trailing.sum / (trailing.length : ℚ) ∧
       (m.passes = true ↔
         m.sma200 < m.currentPrice ∧ m.ath * ATH_THRESHOLD ≤ m.currentPrice))) ∧
    (∃ m, fetchMetrics (some exCloseRaw) (some []) = .ok m ∧ m.passes = true) := by
  constructor
  · intro co vo m h
    rcases co with _ | cr
    · rw [fetchMetrics_none_eq] at h
      exact absurd h (by simp)
    · rcases hlast : (cr.filterMap id).getLast? with _ | cp
      · have hnil : cr.filterMap id = [] := by
          rwa [List.getLast?_eq_none_iff] at hlast
        rw [fetchMetrics_empty_eq cr vo hnil] at h
        exact absurd h (by simp)
      · have hne : cr.filterMap id ≠ [] := by
          intro hn
          rw [hn] at hlast
          simp at hlast
        by_cases hlen :
            ((cr.filterMap id).drop ((cr.filterMap id).length - 200)).length < 50
        · rw [fetchMetrics_insufficient_eq cr vo cp hlast hlen] at h
          exact absurd h (by simp)
        · obtain ⟨m', hm', hcp, hsma, hath, hiff⟩ :=
            fetchMetrics_ok_fields cr vo cp hlast hlen
          rw [hm', Except.ok.injEq] at h
          subst h
          refine ⟨?_, ?_, ?_, hiff⟩
          · rw [hath]
            exact athFold_spec _ hne
          · rw [hcp]
            simp [hlast]
          · rw [hsma]
            rfl
  · obtain ⟨m, hm, hcp, hsma, hath, hiff⟩ :=
      fetchMetrics_ok_fields exCloseRaw (some []) 150 exCloseRaw_getLast exCloseRaw_window
    refine ⟨m, hm, ?_⟩
    rw [hiff]
    constructor
    · rw [hsma, hcp, exCloseRaw_filterMap]
      have hdrop : ((List.replicate 59 (100 : ℚ) ++ [150]).drop
          ((List.replicate 59 (100 : ℚ) ++ [150]).length - 200)) =
          List.replicate 59 (100 : ℚ) ++ [150] := by
        simp
      rw [hdrop]
      simp only [List.sum_append, List.sum_replicate, List.sum_cons, List.sum_nil,
        List.length_append, List.length_replicate, List.length_cons, List.length_nil,
        nsmul_eq_mul]
      norm_num
    · rw [hath, hcp, exCloseRaw_filterMap]
      obtain ⟨hmem, -⟩ :=
        athFold_spec (List.replicate 59 (100 : ℚ) ++ [150]) (by simp)
      rcases List.mem_append.1 hmem with hh | hh
      · rw [List.eq_of_mem_replicate hh]
        norm_num [ATH_THRESHOLD]
      · rw [List.mem_singleton.1 hh]
        norm_num [ATH_THRESHOLD]

/-- C1 witness: the example series succeeds and the theorem's
characterization holds for its metrics. -/
theorem claim_C1_witness :
    ∃ m, fetchMetrics (some exCloseRaw) (some []) = Except.ok m ∧
      (let closes := ((some exCloseRaw : Option (List (Option ℚ))).getD []).filterMap id
       let trailing := closes.drop (closes.length - 200)
       (m.ath ∈ closes ∧ ∀ x ∈ closes, x ≤ m.ath) ∧
       m.currentPrice = closes.getLast?.getD 0 ∧
       m.sma200 = trailing.sum / (trailing.length : ℚ) ∧
       (m.passes = true ↔
         m.sma200 < m.currentPrice ∧ m.ath * ATH_THRESHOLD ≤ m.currentPrice)) := by
  obtain ⟨m, hm, -, -, -, -⟩ :=
    fetchMetrics_ok_fields exCloseRaw (some []) 150 exCloseRaw_getLast exCloseRaw_window
  exact ⟨m, hm, claim_C1.1 (some exCloseRaw) (some []) m hm⟩

theorem mem_ite_singleton {x a : String} {c : Prop} [Decidable c] :
    (x ∈ if c then [a] else []) ↔ (c ∧ x = a) := by
  by_cases h : c
  · rw [if_pos h]
    simp [h]
  · rw [if_neg h]
    simp [h]

/-- The pump-dump loop from position `i`, as an existential over later
start indices (the step counter is large enough to reach the end). -/
theorem pumpDumpScan_iff (c : List ℚ) :
    ∀ (fuel i : ℕ), c.length ≤ i + fuel →
      (pumpDumpScan c fuel i = true ↔ ∃ j, i ≤ j ∧ pumpDumpCondAt c j) := by
  intro fuel
  induction fuel with
  | zero =>
    intro i hf
    simp only [pumpDumpScan]
    constructor
    · intro h
      exact absurd h (by simp)
    · rintro ⟨j, hij, hj⟩
      have := hj.1
      omega
  | succ fuel ih =>
    intro i hf
    have hsplit : (∃ j, i ≤ j ∧ pumpDumpCondAt c j) ↔
        (pumpDumpCondAt c i ∨ ∃ j, i + 1 ≤ j ∧ pumpDumpCondAt c j) := by
      constructor
      · rintro ⟨j, hij, hj⟩
        rcases eq_or_lt_of_le hij with rfl | h
        · exact Or.inl hj
        · exact Or.inr ⟨j, h, hj⟩
      · rintro (h | ⟨j, hij, hj⟩)
        · exact ⟨i, le_refl i, h⟩
        · exact ⟨j, by omega, hj⟩
    rw [hsplit]
    have hih := ih (i + 1) (by omega)
    by_cases hin : i + 24 < c.length
    · by_cases hpos : c.getD i 0 ≤ 0 ∨ c.getD (i + 10) 0 ≤ 0
      · have hstep : pumpDumpScan c (fuel + 1) i = pumpDumpScan c fuel (i + 1) := by
          simp only [pumpDumpScan]
          rw [if_pos hin, if_pos hpos]
        rw [hstep, hih]
        constructor
        · exact Or.inr
        · rintro (h | h)
          · rcases hpos with hp | hp
            · exact absurd h.2.1 (not_lt.2 hp)
            · exact absurd h.2.2.1 (not_lt.2 hp)
          · exact h
      · by_cases hpump : (c.getD (i + 10) 0 - c.getD i 0) / c.getD i 0 * 100 < 80
        · have hstep : pumpDumpScan c (fuel + 1) i = pumpDumpScan c fuel (i + 1) := by
            simp only [pumpDumpScan]
            rw [if_pos hin, if_neg hpos, if_pos hpump]
          rw [hstep, hih]
          constructor
          · exact Or.inr
          · rintro (h | h)
            · exact absurd h.2.2.2.1 (not_le.2 hpump)
            · exact h
        · have hwinne : ((c.take (i + 25)).drop (i + 11)) ≠ [] := by
            intro hnil
            have hlen : ((c.take (i + 25)).drop (i + 11)).length = 0 := by
              rw [hnil]
              rfl
            rw [List.length_drop, List.length_take] at hlen
            omega
          rcases hmin : ((c.take (i + 25)).drop (i + 11)).min? with _ | mn
          · exact absurd (List.min?_eq_none_iff.1 hmin) hwinne
          · by_cases hdump :
                (35 : ℚ) ≤ (c.getD (i + 10) 0 - mn) / c.getD (i + 10) 0 * 100
            · have hstep : pumpDumpScan c (fuel + 1) i = true := by
                simp only [pumpDumpScan]
                rw [if_pos hin, if_neg hpos, if_neg hpump, hmin]
                simp only [if_pos hdump]
              rw [hstep]
              push_neg at hpos
              constructor
              · intro _
                exact Or.inl ⟨hin, hpos.1, hpos.2, not_lt.1 hpump, mn, hmin, hdump⟩
              · intro _
                rfl
            · have hstep : pumpDumpScan c (fuel + 1) i = pumpDumpScan c fuel (i + 1) := by
                simp only [pumpDumpScan]
                rw [if_pos hin, if_neg hpos, if_neg hpump, hmin]
                simp only [if_neg hdump]
              rw [hstep, hih]
              constructor
              · exact Or.inr
              · rintro (h | h)
                · obtain ⟨-, -, -, -, mn', hmn', hd'⟩ := h
                  rw [hmin] at hmn'
                  rw [Option.some_inj] at hmn'
                  subst hmn'
                  exact absurd hd' hdump
                · exact h
    · have hstep : pumpDumpScan c (fuel + 1) i = false := by
        simp only [pumpDumpScan]
        rw [if_neg hin]
      rw [hstep]
      constructor
      · intro h
        exact absurd h (by simp)
      · rintro (h | ⟨j, hij, hj⟩)
        · exact absurd h.1 hin
        · have := hj.1
          omega

theorem pumpDumpDetected_iff (c : List ℚ) :
    pumpDumpDetected c = true ↔ ∃ i, pumpDumpCondAt c i := by
  unfold pumpDumpDetected
  rw [pumpDumpScan_iff c c.length 0 (by omega)]
  constructor
  · rintro ⟨j, -, hj⟩
    exact ⟨j, hj⟩
  · rintro ⟨j, hj⟩
    exact ⟨j, Nat.zero_le j, hj⟩

/-- Membership of the pump-dump id in the structural-warning output
depends only on the pump-dump scan over the trailing 260 closes. -/
theorem pumpDump_mem_ids (closes : List ℚ) (closeRaw volumeRaw : List (Option ℚ)) :
    ("structure-pump-dump" ∈ getMarketStructureWarningIds closes closeRaw volumeRaw) ↔
      pumpDumpDetected (closes.drop (closes.length - 260)) = true := by
  have d1 : ("structure-pump-dump" : String) ≠ "structure-extreme-moves" := by decide
  have d2 : ("structure-pump-dump" : String) ≠ "structure-volume-burst" := by decide
  have d4 : ("structure-pump-dump" : String) ≠ "structure-spike-reversal" := by decide
  have d5 : ("structure-pump-dump" : String) ≠ "structure-vol-regime-shift" := by decide
  unfold getMarketStructureWarningIds
  simp only [List.mem_append, mem_ite_singleton, d1, d2, d4, d5,
    and_false, false_or, or_false, and_true]

/-- C5: the pump-dump structural signal is emitted iff some start index
in the trailing-year closes shows a ≥80% ten-session rise followed by a
≥35% drawdown over the next 14 sessions; a 90%-rise/40%-fall series
emits it, a 90%-rise/20%-fall series does not. -/
theorem claim_C5 :
    (∀ (closes : List ℚ) (closeRaw volumeRaw : List (Option ℚ)),
      ("structure-pump-dump" ∈ getMarketStructureWarningIds closes closeRaw volumeRaw ↔
        ∃ i, pumpDumpCondAt (closes.drop (closes.length - 260)) i)) ∧
    ("structure-pump-dump" ∈
      getMarketStructureWarningIds pumpDumpExample (pumpDumpExample.map some) []) ∧
    ("structure-pump-dump" ∉
      getMarketStructureWarningIds pumpDumpCounterSeries
        (pumpDumpCounterSeries.map some) []) := by
  have hmain : ∀ (closes : List ℚ) (closeRaw volumeRaw : List (Option ℚ)),
      ("structure-pump-dump" ∈ getMarketStructureWarningIds closes closeRaw volumeRaw ↔
        ∃ i, pumpDumpCondAt (closes.drop (closes.length - 260)) i) := by
    intro closes closeRaw volumeRaw
    rw [pumpDump_mem_ids, pumpDumpDetected_iff]
  refine ⟨hmain, ?_, ?_⟩
  · rw [hmain]
    have hdropeq : pumpDumpExample.drop (pumpDumpExample.length - 260) =
        pumpDumpExample := by rfl
    rw [hdropeq]
    refine ⟨0, by decide, ?_, ?_, ?_, ?_⟩
    · rw [show pumpDumpExample.getD 0 0 = 100 from rfl]
      norm_num
    · rw [show pumpDumpExample.getD (0 + 10) 0 = 190 from rfl]
      norm_num
    · rw [show pumpDumpExample.getD (0 + 10) 0 = 190 from rfl,
        show pumpDumpExample.getD 0 0 = 100 from rfl]
      norm_num
    · refine ⟨114, ?_, ?_⟩
      · rw [show (pumpDumpExample.take (0 + 25)).drop (0 + 11) =
            [180, 175, 170, 165, 160, 155, 150, 145, 140, 135, 130, 125, 120,
             (114 : ℚ)] from rfl]
        norm_num [List.min?, min_def]
      · rw [show pumpDumpExample.getD (0 + 10) 0 = 190 from rfl]
        norm_num
  · rw [hmain]
    rintro ⟨i, hcnt, -, -, -, mn, hmn, hdump⟩
    have hdropeq : pumpDumpCounterSeries.drop (pumpDumpCounterSeries.length - 260) =
        pumpDumpCounterSeries := by rfl
    rw [hdropeq] at hcnt hmn hdump
    have hlen : pumpDumpCounterSeries.length = 25 := by decide
    have hi : i = 0 := by omega
    subst hi
    rw [show (pumpDumpCounterSeries.take (0 + 25)).drop (0 + 11) =
        [185, 183, 180, 178, 175, 172, 170, 168, 165, 162, 160, 158, 155,
         (152 : ℚ)] from rfl] at hmn
    have hmn' : mn = 152 := by
      have h152 : ([185, 183, 180, 178, 175, 172, 170, 168, 165, 162, 160, 158, 155,
          (152 : ℚ)]).min? = some 152 := by
        norm_num [List.min?, min_def]
      rw [h152, Option.some_inj] at hmn
      exact hmn.symm
    subst hmn'
    rw [show pumpDumpCounterSeries.getD (0 + 10) 0 = 190 from rfl] at hdump
    norm_num at hdump

theorem stdDevSq_nonneg (values : List ℚ) : 0 ≤ stdDevSq values := by
  unfold stdDevSq
  split
  · exact le_refl 0
  · apply div_nonneg
    · apply List.sum_nonneg
      intro x hx
      obtain ⟨v, -, rfl⟩ := List.mem_map.1 hx
      exact sq_nonneg _
    · exact_mod_cast Nat.zero_le _

/-- Squaring bridge for signal 5: the source's comparisons on standard
deviations are equivalent to the decidable comparisons on variances used
by `volRegimeFlag` (`2.2² = 121/25`, `7² = 49`). -/
theorem stdDev_conditions_iff (r b : List ℚ) :
    (0 < stdDev b ∧ (2.2 : ℝ) * stdDev b ≤ stdDev r ∧ (7 : ℝ) ≤ stdDev r) ↔
    (0 < stdDevSq b ∧ 121 / 25 * stdDevSq b ≤ stdDevSq r ∧ (49 : ℚ) ≤ stdDevSq r) := by
  have hrn : (0 : ℝ) ≤ ((stdDevSq r : ℚ) : ℝ) := by
    exact_mod_cast stdDevSq_nonneg r
  have h1 : 0 < stdDev b ↔ 0 < stdDevSq b := by
    unfold stdDev
    rw [Real.sqrt_pos]
    constructor
    · intro h
      exact_mod_cast h
    · intro h
      exact_mod_cast h
  have h3 : (7 : ℝ) ≤ stdDev r ↔ (49 : ℚ) ≤ stdDevSq r := by
    unfold stdDev
    rw [Real.le_sqrt (by norm_num) hrn]
    constructor
    · intro h
      have h' : (49 : ℝ) ≤ ((stdDevSq r : ℚ) : ℝ) := by
        norm_num at h
        exact h
      exact_mod_cast h'
    · intro h
      have h' : (49 : ℝ) ≤ ((stdDevSq r : ℚ) : ℝ) := by exact_mod_cast h
      norm_num
      exact h'
  have h2 : (2.2 : ℝ) * stdDev b ≤ stdDev r ↔
      121 / 25 * stdDevSq b ≤ stdDevSq r := by
    unfold stdDev
    have h22 : (2.2 : ℝ) = Real.sqrt (121 / 25 : ℝ) := by
      rw [show (121 / 25 : ℝ) = (2.2 : ℝ) ^ 2 from by norm_num,
        Real.sqrt_sq (by norm_num : (0 : ℝ) ≤ 2.2)]
    rw [h22, ← Real.sqrt_mul (by norm_num : (0 : ℝ) ≤ 121 / 25),
      Real.sqrt_le_sqrt_iff hrn]
    constructor
    · intro h
      have h' : ((121 / 25 * stdDevSq b : ℚ) : ℝ) ≤ ((stdDevSq r : ℚ) : ℝ) := by
        push_cast
        exact h
      exact_mod_cast h'
    · intro h
      have h' : ((121 / 25 * stdDevSq b : ℚ) : ℝ) ≤ ((stdDevSq r : ℚ) : ℝ) := by
        exact_mod_cast h
      push_cast at h'
      exact h'
  exact and_congr h1 (and_congr h2 h3)

theorem volRegimeFlag_iff (oneYearReturns : List ℚ) :
    volRegimeFlag oneYearReturns = true ↔
      (170 ≤ oneYearReturns.length ∧
       0 < stdDev ((oneYearReturns.take (oneYearReturns.length - 30)).drop
         (oneYearReturns.length - 150)) ∧
       (2.2 : ℝ) * stdDev ((oneYearReturns.take (oneYearReturns.length - 30)).drop
         (oneYearReturns.length - 150)) ≤
         stdDev (oneYearReturns.drop (oneYearReturns.length - 30)) ∧
       (7 : ℝ) ≤ stdDev (oneYearReturns.drop (oneYearReturns.length - 30))) := by
  unfold volRegimeFlag
  by_cases h : 170 ≤ oneYearReturns.length
  · rw [if_pos h]
    simp only [Bool.and_eq_true, decide_eq_true_iff]
    rw [and_assoc, ← stdDev_conditions_iff]
    simp [h]
  · rw [if_neg h]
    simp [h]

/-- Membership of the volatility-regime id depends only on
`volRegimeFlag` over the trailing 252 returns. -/
theorem volRegime_mem_ids (closes : List ℚ) (closeRaw volumeRaw : List (Option ℚ)) :
    ("structure-vol-regime-shift" ∈ getMarketStructureWarningIds closes closeRaw volumeRaw) ↔
      volRegimeFlag (((buildStructurePoints closeRaw volumeRaw).drop
        ((buildStructurePoints closeRaw volumeRaw).length - 252)).map
        (fun p => p.retPct)) = true := by
  have d1 : ("structure-vol-regime-shift" : String) ≠ "structure-extreme-moves" := by decide
  have d2 : ("structure-vol-regime-shift" : String) ≠ "structure-volume-burst" := by decide
  have d3 : ("structure-vol-regime-shift" : String) ≠ "structure-pump-dump" := by decide
  have d4 : ("structure-vol-regime-shift" : String) ≠ "structure-spike-reversal" := by decide
  unfold getMarketStructureWarningIds
  simp only [List.mem_append, mem_ite_singleton, d1, d2, d3, d4,
    and_false, false_or, or_false, and_true]

/-- C6: the volatility-regime-shift signal is emitted iff the
trailing-year return series has at least 170 points and, with `recentVol`
the population standard deviation of the most recent 30 returns and
`baselineVol` that of the preceding 120 (returns[-150:-30]),
`baselineVol > 0`, `recentVol ≥ 2.2 · baselineVol` and `recentVol ≥ 7`
percentage points. -/
theorem claim_C6 : ∀ (closes : List ℚ) (closeRaw volumeRaw : List (Option ℚ)),
    ("structure-vol-regime-shift" ∈ getMarketStructureWarningIds closes closeRaw volumeRaw) ↔
      (let oneYearReturns := ((buildStructurePoints closeRaw volumeRaw).drop
        ((buildStructurePoints closeRaw volumeRaw).length - 252)).map (fun p => p.retPct)
       170 ≤ oneYearReturns.length ∧
       0 < stdDev ((oneYearReturns.take (oneYearReturns.length - 30)).drop
         (oneYearReturns.length - 150)) ∧
       (2.2 : ℝ) * stdDev ((oneYearReturns.take (oneYearReturns.length - 30)).drop
         (oneYearReturns.length - 150)) ≤
         stdDev (oneYearReturns.drop (oneYearReturns.length - 30)) ∧
       (7 : ℝ) ≤ stdDev (oneYearReturns.drop (oneYearReturns.length - 30))) := by
  intro closes closeRaw volumeRaw
  rw [volRegime_mem_ids, volRegimeFlag_iff]

theorem upChar_snd_fixed : ∀ p ∈ asciiPairs, upChar p.2 = p.2 := by decide

theorem upChar_idem (c : Char) : upChar (upChar c) = upChar c := by
  rcases h : asciiPairs.find? (fun p => p.1 == c) with _ | p
  · have hc : upChar c = c := by simp [upChar, h]
    rw [hc]
    exact hc
  · have hp : upChar c = p.2 := by simp [upChar, h]
    rw [hp]
    exact upChar_snd_fixed p (List.mem_of_find?_eq_some h)

theorem jsToUpper_idem (s : Str) : jsToUpper (jsToUpper s) = jsToUpper s := by
  unfold jsToUpper
  rw [List.map_map]
  exact List.map_congr_left (fun c _ => upChar_idem c)

theorem normalizeSymbol_good (raw : Option Str) (s : Str)
    (h : normalizeSymbol raw = some s) : s ≠ [] ∧ jsToUpper s = s := by
  rcases raw with _ | t
  · simp [normalizeSymbol] at h
  · simp only [normalizeSymbol] at h
    by_cases h1 : t = []
    · rw [if_pos h1] at h
      exact absurd h (by simp)
    · rw [if_neg h1] at h
      by_cases h2 : jsToUpper (trimWs t) = []
      · rw [if_pos h2] at h
        exact absurd h (by simp)
      · rw [if_neg h2] at h
        rw [Option.some_inj] at h
        subst h
        exact ⟨h2, jsToUpper_idem _⟩

theorem extractFromHref_good (href : Option Str) (s : Str)
    (h : extractFromHref href = some s) : s ≠ [] ∧ jsToUpper s = s := by
  rcases href with _ | t
  · simp [extractFromHref] at h
  · simp only [extractFromHref] at h
    by_cases h1 : t = []
    · rw [if_pos h1] at h
      exact absurd h (by simp)
    · rw [if_neg h1] at h
      split at h
      · exact absurd h (by simp)
      · split at h
        · exact absurd h (by simp)
        · exact normalizeSymbol_good _ _ h

theorem mem_insertSym {l : List Str} {s x : Str} :
    x ∈ insertSym l s ↔ x ∈ l ∨ x = s := by
  unfold insertSym
  by_cases h : s ∈ l
  · rw [if_pos h]
    constructor
    · exact Or.inl
    · rintro (hx | rfl)
      · exact hx
      · exact h
  · rw [if_neg h]
    simp

theorem nodup_insertSym {l : List Str} {s : Str} (h : l.Nodup) :
    (insertSym l s).Nodup := by
  unfold insertSym
  by_cases hs : s ∈ l
  · rw [if_pos hs]
    exact h
  · rw [if_neg hs]
    simp [List.nodup_append, h, hs]

theorem mem_foldl_insertSym (xs : List Str) :
    ∀ (acc : List Str) (x : Str),
      x ∈ xs.foldl insertSym acc ↔ x ∈ acc ∨ x ∈ xs := by
  induction xs with
  | nil =>
    intro acc x
    simp
  | cons y ys ih =>
    intro acc x
    rw [List.foldl_cons, ih, mem_insertSym]
    constructor
    · rintro ((hx | rfl) | hx)
      · exact Or.inl hx
      · exact Or.inr (List.mem_cons_self _ _)
      · exact Or.inr (List.mem_cons_of_mem _ hx)
    · rintro (hx | hx)
      · exact Or.inl (Or.inl hx)
      · rcases List.mem_cons.1 hx with rfl | hx
        · exact Or.inl (Or.inr rfl)
        · exact Or.inr hx

theorem nodup_foldl_insertSym (xs : List Str) :
    ∀ acc : List Str, acc.Nodup → (xs.foldl insertSym acc).Nodup := by
  induction xs with
  | nil =>
    intro acc h
    exact h
  | cons y ys ih =>
    intro acc h
    rw [List.foldl_cons]
    exact ih _ (nodup_insertSym h)

theorem parseStep_good (acc : List Str) (row : Row)
    (hacc : ∀ s ∈ acc, s ≠ [] ∧ jsToUpper s = s) :
    ∀ s ∈ (match extractFromHref row.href with
      | some hrefSymbol => insertSym acc hrefSymbol
      | none =>
        match normalizeSymbol (some row.firstCellText) with
        | some directSymbol => insertSym acc directSymbol
        | none => acc),
      s ≠ [] ∧ jsToUpper s = s := by
  intro s
  rcases hh : extractFromHref row.href with _ | hsym
  · rcases hn : normalizeSymbol (some row.firstCellText) with _ | dsym
    · simp only [hh, hn]
      exact hacc s
    · simp only [hh, hn]
      intro hs
      rcases mem_insertSym.1 hs with hx | rfl
      · exact hacc s hx
      · exact normalizeSymbol_good _ _ hn
  · simp only [hh]
    intro hs
    rcases mem_insertSym.1 hs with hx | rfl
    · exact hacc s hx
    · exact extractFromHref_good _ _ hh

theorem parseStep_nodup (acc : List Str) (row : Row) (hacc : acc.Nodup) :
    (match extractFromHref row.href with
      | some hrefSymbol => insertSym acc hrefSymbol
      | none =>
        match normalizeSymbol (some row.firstCellText) with
        | some directSymbol => insertSym acc directSymbol
        | none => acc).Nodup := by
  rcases hh : extractFromHref row.href with _ | hsym
  · rcases hn : normalizeSymbol (some row.firstCellText) with _ | dsym
    · simp only [hh, hn]
      exact hacc
    · simp only [hh, hn]
      exact nodup_insertSym hacc
  · simp only [hh]
    exact nodup_insertSym hacc

theorem parseFold_good (rows : List Row) :
    ∀ acc : List Str, (∀ s ∈ acc, s ≠ [] ∧ jsToUpper s = s) →
      ∀ s ∈ rows.foldl (fun acc row =>
          match extractFromHref row.href with
          | some hrefSymbol => insertSym acc hrefSymbol
          | none =>
            match normalizeSymbol (some row.firstCellText) with
            | some directSymbol => insertSym acc directSymbol
            | none => acc) acc,
        s ≠ [] ∧ jsToUpper s = s := by
  induction rows with
  | nil =>
    intro acc hacc
    exact hacc
  | cons row rows ih =>
    intro acc hacc
    rw [List.foldl_cons]
    exact ih _ (parseStep_good acc row hacc)

theorem parseFold_nodup (rows : List Row) :
    ∀ acc : List Str, acc.Nodup →
      (rows.foldl (fun acc row =>
          match extractFromHref row.href with
          | some hrefSymbol => insertSym acc hrefSymbol
          | none =>
            match normalizeSymbol (some row.firstCellText) with
            | some directSymbol => insertSym acc directSymbol
            | none => acc) acc).Nodup := by
  induction rows with
  | nil =>
    intro acc hacc
    exact hacc
  | cons row rows ih =>
    intro acc hacc
    rw [List.foldl_cons]
    exact ih _ (parseStep_nodup acc row hacc)

theorem count_eq_one_of_nodup_mem {l : List Str} {s : Str}
    (hnd : l.Nodup) (hmem : s ∈ l) : l.count s = 1 := by
  induction l with
  | nil => simp at hmem
  | cons a t ih =>
    rw [List.count_cons]
    rcases List.mem_cons.1 hmem with rfl | hm
    · have hnin : s ∉ t := (List.nodup_cons.1 hnd).1
      have hz : t.count s = 0 := by
        rw [List.count_eq_zero]
        exact hnin
      simp [hz]
    · have hat : a ∉ t := (List.nodup_cons.1 hnd).1
      have hne : a ≠ s := by
        intro hcon
        subst hcon
        exact hat hm
      rw [ih (List.nodup_cons.1 hnd).2 hm]
      simp [hne, Ne.symm hne]

theorem mem_aggregateFold (pages : List (List Row)) :
    ∀ (acc : List Str) (x : Str),
      x ∈ pages.foldl (fun acc rows => (parsePageSymbols rows).foldl insertSym acc) acc ↔
        x ∈ acc ∨ ∃ rows ∈ pages, x ∈ parsePageSymbols rows := by
  induction pages with
  | nil =>
    intro acc x
    simp
  | cons pg pages ih =>
    intro acc x
    rw [List.foldl_cons, ih, mem_foldl_insertSym]
    constructor
    · rintro ((hx | hx) | ⟨rows, hr, hx⟩)
      · exact Or.inl hx
      · exact Or.inr ⟨pg, List.mem_cons_self _ _, hx⟩
      · exact Or.inr ⟨rows, List.mem_cons_of_mem _ hr, hx⟩
    · rintro (hx | ⟨rows, hr, hx⟩)
      · exact Or.inl (Or.inl hx)
      · rcases List.mem_cons.1 hr with rfl | hr
        · exact Or.inl (Or.inr hx)
        · exact Or.inr ⟨rows, hr, hx⟩

theorem nodup_aggregateFold (pages : List (List Row)) :
    ∀ acc : List Str, acc.Nodup →
      (pages.foldl (fun acc rows => (parsePageSymbols rows).foldl insertSym acc) acc).Nodup := by
  induction pages with
  | nil =>
    intro acc h
    exact h
  | cons pg pages ih =>
    intro acc h
    rw [List.foldl_cons]
    exact ih _ (nodup_foldl_insertSym _ _ h)

/-- C8: every extracted symbol is non-empty and equal to its own
uppercased form, page outputs are duplicate-free, and a symbol extracted
on any page appears exactly once in the run's aggregated set. -/
theorem claim_C8 :
    (∀ rows : List Row,
      (parsePageSymbols rows).Nodup ∧
      ∀ s ∈ parsePageSymbols rows, s ≠ [] ∧ jsToUpper s = s) ∧
    (∀ pages : List (List Row),
      (∀ s ∈ aggregateSymbols pages, s ≠ [] ∧ jsToUpper s = s) ∧
      ∀ s, (∃ rows ∈ pages, s ∈ parsePageSymbols rows) →
        (aggregateSymbols pages).count s = 1) := by
  constructor
  · intro rows
    exact ⟨parseFold_nodup rows [] List.nodup_nil,
      parseFold_good rows [] (by simp)⟩
  · intro pages
    constructor
    · intro s hs
      rcases (mem_aggregateFold pages [] s).1 hs with hx | ⟨rows, -, hx⟩
      · simp at hx
      · exact parseFold_good rows [] (by simp) s hx
    · intro s hs
      have hmem : s ∈ aggregateSymbols pages := (mem_aggregateFold pages [] s).2 (Or.inr hs)
      have hnd : (aggregateSymbols pages).Nodup := nodup_aggregateFold pages [] List.nodup_nil
      exact count_eq_one_of_nodup_mem hnd hmem

/-- C8 witness: "TCS" extracted from the same row on two pages appears
once in the aggregate, non-empty and uppercase-fixed. -/
theorem claim_C8_witness :
    ("TCS".toList ≠ [] ∧ jsToUpper "TCS".toList = "TCS".toList) ∧
    (aggregateSymbols [[rowTCS], [rowTCS]]).count "TCS".toList = 1 :=
  ⟨(claim_C8.2 [[rowTCS], [rowTCS]]).1 "TCS".toList (by decide),
   (claim_C8.2 [[rowTCS], [rowTCS]]).2 "TCS".toList ⟨[rowTCS], by decide, by decide⟩⟩

theorem jsIncludes_iff (hay needle : Str) :
    jsIncludes hay needle = true ↔ substrOccurs hay needle := by
  unfold jsIncludes substrOccurs
  rw [List.any_eq_true]
  constructor
  · rintro ⟨i, hi, hocc⟩
    rw [List.mem_range] at hi
    unfold occursAt at hocc
    rw [beq_iff_eq] at hocc
    refine ⟨hay.take i, hay.drop (i + needle.length), ?_⟩
    have hsplit : hay.drop i = needle ++ hay.drop (i + needle.length) := by
      conv_lhs => rw [← List.take_append_drop needle.length (hay.drop i)]
      rw [hocc, List.drop_drop]
    calc hay = hay.take i ++ hay.drop i := (List.take_append_drop i hay).symm
      _ = hay.take i ++ (needle ++ hay.drop (i + needle.length)) := by rw [hsplit]
      _ = hay.take i ++ needle ++ hay.drop (i + needle.length) :=
        (List.append_assoc _ _ _).symm
  · rintro ⟨pre, post, rfl⟩
    refine ⟨pre.length, ?_, ?_⟩
    · rw [List.mem_range]
      simp only [List.length_append]
      omega
    · unfold occursAt
      rw [beq_iff_eq, List.append_assoc, List.drop_left, List.take_left]

theorem getLast?_take_getD (hay : Str) (i : ℕ) (h1 : 1 ≤ i) (h2 : i ≤ hay.length) :
    (hay.take i).getLast? = some (hay.getD (i - 1) ' ') := by
  rw [List.getLast?_eq_getElem?, List.length_take, min_eq_left h2,
    List.getElem?_take, if_pos (by omega : i - 1 < i), List.getD_eq_getElem?_getD]
  rcases hx : hay[i - 1]? with _ | c
  · rw [List.getElem?_eq_none_iff] at hx
    omega
  · simp

theorem hasBoundedTokenMatch_iff (hay tok : Str) :
    hasBoundedTokenMatch hay tok = true ↔ boundedTokenOccurs hay tok := by
  unfold hasBoundedTokenMatch boundedTokenOccurs
  by_cases htok : tok.isEmpty
  · rw [if_pos htok]
    have hnil : tok = [] := List.isEmpty_iff.1 htok
    subst hnil
    simp
  · rw [if_neg htok]
    have htne : tok ≠ [] := by
      intro h
      subst h
      exact htok rfl
    rw [List.any_eq_true]
    constructor
    · rintro ⟨i, hi, hcond⟩
      rw [List.mem_range] at hi
      rw [Bool.and_eq_true, Bool.and_eq_true] at hcond
      obtain ⟨⟨hocc, hpre⟩, hpost⟩ := hcond
      unfold occursAt at hocc
      rw [beq_iff_eq] at hocc
      have hlen : i + tok.length ≤ hay.length := by
        have hth := congrArg List.length hocc
        rw [List.length_take, List.length_drop] at hth
        omega
      refine ⟨htne, hay.take i, hay.drop (i + tok.length), ?_, ?_, ?_⟩
      · have hsplit : hay.drop i = tok ++ hay.drop (i + tok.length) := by
          conv_lhs => rw [← List.take_append_drop tok.length (hay.drop i)]
          rw [hocc, List.drop_drop]
        calc hay = hay.take i ++ hay.drop i := (List.take_append_drop i hay).symm
          _ = hay.take i ++ (tok ++ hay.drop (i + tok.length)) := by rw [hsplit]
          _ = hay.take i ++ tok ++ hay.drop (i + tok.length) :=
            (List.append_assoc _ _ _).symm
      · by_cases hi0 : i = 0
        · subst hi0
          left
          rfl
        · right
          rw [Bool.or_eq_true] at hpre
          rcases hpre with h0 | hal
          · rw [beq_iff_eq] at h0
            exact absurd h0 hi0
          · refine ⟨hay.getD (i - 1) ' ', ?_, ?_⟩
            · exact getLast?_take_getD hay i (by omega) (by omega)
            · rw [Bool.not_eq_true'] at hal
              exact hal
      · by_cases hend : i + tok.length = hay.length
        · left
          rw [hend, List.drop_length]
        · right
          rw [Bool.or_eq_true] at hpost
          rcases hpost with hd | hal
          · rw [decide_eq_true_iff] at hd
            exact absurd hd hend
          · have hlt : i + tok.length < hay.length := lt_of_le_of_ne hlen hend
            refine ⟨hay.getD (i + tok.length) ' ', ?_, ?_⟩
            · rw [List.head?_drop, List.getD_eq_getElem?_getD]
              rcases hx : hay[i + tok.length]? with _ | c
              · rw [List.getElem?_eq_none_iff] at hx
                omega
              · simp
            · rw [Bool.not_eq_true'] at hal
              exact hal
    · rintro ⟨-, pre, post, rfl, hpre, hpost⟩
      refine ⟨pre.length, ?_, ?_⟩
      · rw [List.mem_range]
        simp only [List.length_append]
        omega
      · rw [Bool.and_eq_true, Bool.and_eq_true]
        refine ⟨⟨?_, ?_⟩, ?_⟩
        · unfold occursAt
          rw [beq_iff_eq, List.append_assoc, List.drop_left, List.take_left]
        · rcases hpre with rfl | ⟨c, hc, hcal⟩
          · simp
          · rw [Bool.or_eq_true]
            right
            have hprene : pre ≠ [] := by
              intro h
              rw [h] at hc
              simp at hc
            have hplen : 1 ≤ pre.length := List.length_pos.2 hprene
            have hgd : (pre ++ tok ++ post).getD (pre.length - 1) ' ' = c := by
              rw [List.getD_eq_getElem?_getD, List.append_assoc,
                List.getElem?_append_left (by omega : pre.length - 1 < pre.length),
                ← List.getLast?_eq_getElem?, hc]
              rfl
            rw [hgd, Bool.not_eq_true']
            exact hcal
        · rcases hpost with rfl | ⟨c, hc, hcal⟩
          · rw [Bool.or_eq_true]
            left
            rw [decide_eq_true_iff]
            simp [List.length_append]
          · rw [Bool.or_eq_true]
            right
            have hgd : (pre ++ tok ++ post).getD (pre.length + tok.length) ' ' = c := by
              rw [List.getD_eq_getElem?_getD,
                List.getElem?_append_right
                  (by simp [List.length_append] : (pre ++ tok).length ≤ pre.length + tok.length)]
              have hidx : pre.length + tok.length - (pre ++ tok).length = 0 := by
                simp [List.length_append]
              rw [hidx, ← List.head?_eq_getElem?, hc]
              rfl
            rw [hgd, Bool.not_eq_true']
            exact hcal

/-- C3 (amended): the company-identity match succeeds iff the symbol
(length ≥3) occurs as a bounded token in the normalized text, OR the name
occurs literally as a substring (no length requirement — this is where
the claim differs), OR the name has ≥4 alphanumeric characters and its
compacted form occurs in the compacted text; the TataMotors example
matches. -/
theorem claim_C3_amended :
    (∀ (haystack symbol : Str) (name : Option Str),
      hasCompanyReference haystack symbol name = true ↔
        amendedC3Prop haystack symbol name) ∧
    hasCompanyReference "Q1 results for TataMotors Ltd".toList "TATAMOTORS".toList
      (some "Tata Motors".toList) = true := by
  constructor
  · intro hay sym name
    unfold hasCompanyReference amendedC3Prop
    by_cases h1 : (decide (3 ≤ sym.length) &&
        hasBoundedTokenMatch (normalizeText hay) (jsToLower sym)) = true
    · rw [if_pos h1]
      rw [Bool.and_eq_true, decide_eq_true_iff] at h1
      exact ⟨fun _ => Or.inl ⟨h1.1, (hasBoundedTokenMatch_iff _ _).1 h1.2⟩, fun _ => rfl⟩
    · rw [if_neg h1]
      have hnotok : ¬(3 ≤ sym.length ∧ boundedTokenOccurs (normalizeText hay) (jsToLower sym)) := by
        rintro ⟨ha, hb⟩
        exact h1 (by
          rw [Bool.and_eq_true, decide_eq_true_iff]
          exact ⟨ha, (hasBoundedTokenMatch_iff _ _).2 hb⟩)
      rcases name with _ | n
      · dsimp only
        constructor
        · intro h
          exact absurd h (by simp)
        · rintro (h | ⟨n, hn, -⟩)
          · exact absurd h hnotok
          · exact absurd hn (by simp)
      · dsimp only
        by_cases h2 : jsIncludes (normalizeText hay) (jsToLower n) = true
        · rw [if_pos h2]
          exact ⟨fun _ => Or.inr ⟨n, rfl, Or.inl ((jsIncludes_iff _ _).1 h2)⟩, fun _ => rfl⟩
        · rw [if_neg h2]
          by_cases h3 : (compactStr (jsToLower n)).length < 4
          · rw [if_pos h3]
            constructor
            · intro h
              exact absurd h (by simp)
            · rintro (h | ⟨n', hn', hsub⟩)
              · exact absurd h hnotok
              · rw [Option.some_inj] at hn'
                subst hn'
                rcases hsub with hlit | ⟨hlen4, -⟩
                · exact absurd ((jsIncludes_iff _ _).2 hlit) h2
                · omega
          · rw [if_neg h3]
            constructor
            · intro h
              exact Or.inr ⟨n, rfl, Or.inr ⟨by omega, (jsIncludes_iff _ _).1 h⟩⟩
            · rintro (h | ⟨n', hn', hsub⟩)
              · exact absurd h hnotok
              · rw [Option.some_inj] at hn'
                subst hn'
                rcases hsub with hlit | ⟨-, hcomp⟩
                · exact absurd ((jsIncludes_iff _ _).2 hlit) h2
                · exact (jsIncludes_iff _ _).2 hcomp
  · decide

/-- C3 counterexample: symbol "AB" (length 2), name "ab" (2 alphanumeric
characters), haystack "xab".  The code matches via the literal substring
check, but the claim requires ≥4 alphanumeric characters in the name for
both substring checks, so its predicate rejects. -/
theorem claim_C3_counterexample :
    hasCompanyReference "xab".toList "AB".toList (some "ab".toList) = true ∧
    claimC3Check "xab".toList "AB".toList (some "ab".toList) = false := by
  constructor
  · decide
  · decide

theorem splitIntoBatchesGo_spec :
    ∀ (fuel : ℕ) (l : List Str), l.length ≤ fuel →
      (∀ s ∈ l, s ≠ [] ∧ ',' ∉ s) →
      ((splitIntoBatchesGo fuel l).length = (l.length + 29) / 30 ∧
       ((splitIntoBatchesGo fuel l).map (List.splitOn ',')).flatten = l ∧
       (∀ b ∈ (splitIntoBatchesGo fuel l).dropLast, (b.splitOn ',').length = 30) ∧
       (∀ b, (splitIntoBatchesGo fuel l).getLast? = some b →
         1 ≤ (b.splitOn ',').length ∧ (b.splitOn ',').length ≤ 30)) := by
  intro fuel
  induction fuel with
  | zero =>
    intro l hf hsym
    have hnil : l = [] := List.length_eq_zero.1 (by omega)
    subst hnil
    refine ⟨rfl, rfl, by simp [splitIntoBatchesGo], ?_⟩
    intro b hb
    simp [splitIntoBatchesGo] at hb
  | succ fuel ih =>
    intro l hf hsym
    rcases l with _ | ⟨x, t⟩
    · refine ⟨rfl, rfl, by simp [splitIntoBatchesGo], ?_⟩
      intro b hb
      simp [splitIntoBatchesGo] at hb
    · set l := x :: t with hl
      have hlne : l ≠ [] := by simp [hl]
      have hlen1 : 1 ≤ l.length := by simp [hl]
      have hchunkne : l.take 30 ≠ [] := by
        rw [Ne, List.take_eq_nil_iff]
        push_neg
        exact ⟨by omega, hlne⟩
      have hchunk_split :
          ((List.intercalate [','] (l.take 30)).splitOn ',') = l.take 30 := by
        refine List.splitOn_intercalate (l.take 30) ',' ?_ hchunkne
        intro s hs
        exact (hsym s (List.mem_of_mem_take hs)).2
      have hchunklen : (l.take 30).length = min 30 l.length := by
        simp [List.length_take]
      have hstep : splitIntoBatchesGo (fuel + 1) l =
          List.intercalate [','] (l.take 30) :: splitIntoBatchesGo fuel (l.drop 30) := by
        rw [hl]
        rfl
      have hdlen : (l.drop 30).length = l.length - 30 := by
        simp [List.length_drop]
      have hdf : (l.drop 30).length ≤ fuel := by omega
      have hdsym : ∀ s ∈ l.drop 30, s ≠ [] ∧ ',' ∉ s := by
        intro s hs
        exact hsym s (List.mem_of_mem_drop hs)
      obtain ⟨ihlen, ihflat, ihdrop, ihlast⟩ := ih (l.drop 30) hdf hdsym
      refine ⟨?_, ?_, ?_, ?_⟩
      · rw [hstep]
        simp only [List.length_cons, ihlen, hdlen]
        omega
      · rw [hstep]
        simp only [List.map_cons, List.flatten_cons, hchunk_split, ihflat]
        exact List.take_append_drop 30 l
      · rw [hstep]
        rcases hrest : splitIntoBatchesGo fuel (l.drop 30) with _ | ⟨r, rs⟩
        · simp
        · rw [List.dropLast_cons₂]
          intro b hb
          rcases List.mem_cons.1 hb with rfl | hb
          · rw [hchunk_split, hchunklen]
            have h30 : 30 < l.length := by
              by_contra hcon
              have : l.drop 30 = [] := by
                rw [← List.length_eq_zero]
                omega
              rw [this] at hrest
              simp [splitIntoBatchesGo] at hrest
            omega
          · rw [← hrest] at hb
            exact ihdrop b hb
      · rw [hstep]
        rcases hrest : splitIntoBatchesGo fuel (l.drop 30) with _ | ⟨r, rs⟩
        · intro b hb
          rw [List.getLast?_singleton, Option.some_inj] at hb
          subst hb
          rw [hchunk_split, hchunklen]
          omega
        · intro b hb
          rw [List.getLast?_cons_cons] at hb
          rw [← hrest] at hb
          exact ihlast b hb

/-- C10: at the default batch size 30, the batcher produces
⌈n / 30⌉ comma-joined batches, all of size 30 except a final batch of
size 1–30, and splitting each batch on commas and concatenating recovers
the input exactly (given non-empty, comma-free symbols). -/
theorem claim_C10 : ∀ symbols : List Str, (∀ s ∈ symbols, s ≠ [] ∧ ',' ∉ s) →
    ((splitIntoBatches symbols).length = (symbols.length + 29) / 30 ∧
     ((splitIntoBatches symbols).map (List.splitOn ',')).flatten = symbols ∧
     (∀ b ∈ (splitIntoBatches symbols).dropLast, (b.splitOn ',').length = 30) ∧
     (∀ b, (splitIntoBatches symbols).getLast? = some b →
       1 ≤ (b.splitOn ',').length ∧ (b.splitOn ',').length ≤ 30)) := by
  intro symbols h
  exact splitIntoBatchesGo_spec symbols.length symbols (le_refl _) h

/-- C10 witness at a concrete two-symbol list. -/
theorem claim_C10_witness :
    ((splitIntoBatches ["NSE:TCS".toList, "NSE:INFY".toList]).length =
      (([ "NSE:TCS".toList, "NSE:INFY".toList ] : List Str).length + 29) / 30 ∧
     ((splitIntoBatches ["NSE:TCS".toList, "NSE:INFY".toList]).map
       (List.splitOn ',')).flatten = ["NSE:TCS".toList, "NSE:INFY".toList] ∧
     (∀ b ∈ (splitIntoBatches ["NSE:TCS".toList, "NSE:INFY".toList]).dropLast,
       (b.splitOn ',').length = 30) ∧
     (∀ b, (splitIntoBatches ["NSE:TCS".toList, "NSE:INFY".toList]).getLast? = some b →
       1 ≤ (b.splitOn ',').length ∧ (b.splitOn ',').length ≤ 30)) :=
  claim_C10 ["NSE:TCS".toList, "NSE:INFY".toList] (by decide)

end Screener
